import Mathlib

/-
Verification of the SMUbot live-synchronization and event-overlay engine.

The definitions in this file are a shallow embedding of the client code in
`queue_manager/public/queue_manager.js` (queue synchronizer, selection
reconciliation, channel-event connection manager, dashboard event feed
handler).  The event-overlay engine itself (the script loaded through
`event_overlay.html`, referenced by the overlay builder in
`queue_manager.js`) is not part of the source tree; the few definitions that
concern it are modelled from the specification and are marked as such in
their doc comments.

Machine strings coming over the wire are modelled as `String` where only
structural equality matters and as `List Char` where the code inspects or
splits character content, because the character-level view is the one the
normalizer manipulates.
-/

namespace SMUbot

/-! ## JSON values

JavaScript values produced by `JSON.parse`.  Numbers are modelled as
integers: none of the verified control flow distinguishes numeric values
beyond truthiness. -/

inductive Json where
  | null
  | bool (b : Bool)
  | num (n : Int)
  | str (s : String)
  | arr (elems : List Json)
  | obj (fields : List (String × Json))

/-- Field lookup on a parsed value, as JavaScript property access on the
result of `JSON.parse`: only objects carry fields, and with duplicate keys
the last occurrence wins (as in `JSON.parse`). -/
def Json.getField : Json → String → Option Json
  | .obj fields, k => ((fields.filter (fun p => p.1 == k)).getLast?).map (fun p => p.2)
  | _, _ => none

/-- The test `parsed && typeof parsed === 'object'` from `handleEventMessage`:
true for objects and arrays, false for `null` and primitives. -/
def Json.isObjectLike : Json → Bool
  | .obj _ => true
  | .arr _ => true
  | _ => false

/-- JavaScript truthiness of a parsed JSON value. -/
def Json.isTruthy : Json → Bool
  | .null => false
  | .bool b => b
  | .num n => n != 0
  | .str s => s != ""
  | .arr _ => true
  | .obj _ => true

/-! ## Dashboard event feed: `handleEventMessage`

`queue_manager/public/queue_manager.js`, lines 2193-2212.  The function
receives the text of a websocket message, runs it through `JSON.parse`
(whose outcome we take as an explicit `Option Json` argument, since the
function's behaviour depends only on that outcome), and appends one entry
to the event feed.  We record the appended entry. -/

structure EventEntry where
  type : String
  payload : Json
  timestamp : Json

/-- Shallow embedding of `handleEventMessage(data)`.  `parsed` is the result
of `JSON.parse(data)` (`none` when the parse threw), `nowIso` stands for
`new Date().toISOString()`. -/
def handleEventMessage (parsed : Option Json) (data nowIso : String) : EventEntry :=
  match parsed with
  | none => { type := "raw", payload := Json.str data, timestamp := Json.str nowIso }
  | some p =>
      let isObject := p.isObjectLike
      let type :=
        match (if isObject then p.getField "type" else none) with
        | some (Json.str s) => s
        | _ => "event"
      let timestamp :=
        match (if isObject then p.getField "timestamp" else none) with
        | some t => if t.isTruthy then t else Json.str nowIso
        | none => Json.str nowIso
      let payload :=
        if isObject then (p.getField "payload").getD p else p
      { type := type, payload := payload, timestamp := timestamp }

/-- C5: for every inbound message parsed as structured data (an object or an
array), `handleEventMessage` takes `type` from the `type` field, defaulting
to `"event"` when that field is absent or not a string, and takes the
payload from the `payload` field when present, else the whole parsed
structure. -/
theorem handleEventMessage_structured_extraction
    (p : Json) (data nowIso : String) (hobj : p.isObjectLike = true) :
    (∀ s, p.getField "type" = some (Json.str s) →
        (handleEventMessage (some p) data nowIso).type = s) ∧
    ((∀ s, p.getField "type" ≠ some (Json.str s)) →
        (handleEventMessage (some p) data nowIso).type = "event") ∧
    (∀ v, p.getField "payload" = some v →
        (handleEventMessage (some p) data nowIso).payload = v) ∧
    (p.getField "payload" = none →
        (handleEventMessage (some p) data nowIso).payload = p) := by
  refine ⟨?_, ?_, ?_, ?_⟩
  · intro s hs
    simp [handleEventMessage, hobj, hs]
  · intro hs
    rcases h : p.getField "type" with _ | v
    · simp [handleEventMessage, hobj, h]
    · cases v <;> simp [handleEventMessage, hobj, h]
      exact absurd h (hs _)
  · intro v hv
    simp [handleEventMessage, hobj, hv]
  · intro hv
    simp [handleEventMessage, hobj, hv]

/-- Witness for C5 at a concrete structured message:
`{"type":"queue.status","payload":{"status":"open"}}`. -/
theorem handleEventMessage_structured_extraction_witness :
    (handleEventMessage
        (some (Json.obj [("type", Json.str "queue.status"),
                         ("payload", Json.obj [("status", Json.str "open")])]))
        "d" "now").type = "queue.status" ∧
    (handleEventMessage
        (some (Json.obj [("type", Json.str "queue.status"),
                         ("payload", Json.obj [("status", Json.str "open")])]))
        "d" "now").payload = Json.obj [("status", Json.str "open")] := by
  constructor
  · exact (handleEventMessage_structured_extraction
      (Json.obj [("type", Json.str "queue.status"),
                 ("payload", Json.obj [("status", Json.str "open")])])
      "d" "now" rfl).1 "queue.status" rfl
  · exact (handleEventMessage_structured_extraction
      (Json.obj [("type", Json.str "queue.status"),
                 ("payload", Json.obj [("status", Json.str "open")])])
      "d" "now" rfl).2.2.1 (Json.obj [("status", Json.str "open")]) rfl

/-! ## Queue synchronizer: `fetchQueue`

`queue_manager/public/queue_manager.js`, lines 1133-1276.  `fetchQueue` is
an `async` function guarded by the module flags `queueFetchActive` and
`queueFetchQueued`.  Because the page is single-threaded, its behaviour is
captured by two atomic transitions: the synchronous prefix of a call
(everything up to the first `await`), and the completion of the awaited
body together with the `finally` block.  `flight` counts fetches currently
in flight (a ghost counter used to state the no-concurrency property), and
`started` counts fetches ever begun. -/

/-- Outcome of an in-flight refresh body: the fetch resolved with an ok
response, resolved non-ok (`!resp.ok`), rejected, or the rendering code
threw.  The `finally` block runs in all four cases. -/
inductive FetchOutcome where
  | ok
  | httpError
  | fetchRejected
  | renderThrew
deriving DecidableEq

structure SyncState where
  hasChannel : Bool
  active : Bool
  queued : Bool
  flight : Nat
  started : Nat
deriving DecidableEq

/-- Synchronous prefix of a `fetchQueue()` call: return early without a
channel; if a refresh is active, set the queued flag and return; otherwise
mark active and start a fetch. -/
def callFetchQueue (s : SyncState) : SyncState :=
  if s.hasChannel = false then s
  else if s.active then { s with queued := true }
  else { s with active := true, flight := s.flight + 1, started := s.started + 1 }

/-- Completion of an in-flight refresh: whatever the body did (`o`), the
`finally` block clears `queueFetchActive` and, if `queueFetchQueued` was
set, clears it and synchronously re-invokes `fetchQueue`. -/
def completeFetch (_o : FetchOutcome) (s : SyncState) : SyncState :=
  if s.flight = 0 then s
  else
    let s1 := { s with flight := s.flight - 1, active := false }
    if s1.queued then callFetchQueue { s1 with queued := false }
    else s1

inductive SyncEvent where
  | call
  | complete (o : FetchOutcome)

def syncStep (s : SyncState) : SyncEvent → SyncState
  | .call => callFetchQueue s
  | .complete o => completeFetch o s

/-- Page-load state of the synchronizer flags. -/
def syncInit (hc : Bool) : SyncState :=
  { hasChannel := hc, active := false, queued := false, flight := 0, started := 0 }

def runSync (hc : Bool) (evs : List SyncEvent) : SyncState :=
  evs.foldl syncStep (syncInit hc)

/-- The flag invariant tying the ghost in-flight counter to
`queueFetchActive`, and recording that the queued flag is only ever set
while a refresh is active. -/
def syncInv (s : SyncState) : Prop :=
  s.flight = (if s.active then 1 else 0) ∧ (s.queued = true → s.active = true)

theorem syncInv_init (hc : Bool) : syncInv (syncInit hc) := by
  constructor <;> simp [syncInit]

theorem syncInv_call (s : SyncState) (h : syncInv s) : syncInv (callFetchQueue s) := by
  obtain ⟨hasChannel, active, queued, flight, started⟩ := s
  obtain ⟨h1, h2⟩ := h
  cases hasChannel <;> cases active <;> cases queued <;>
    simp_all [callFetchQueue, syncInv]

theorem syncInv_complete (o : FetchOutcome) (s : SyncState) (h : syncInv s) :
    syncInv (completeFetch o s) := by
  obtain ⟨hasChannel, active, queued, flight, started⟩ := s
  obtain ⟨h1, h2⟩ := h
  cases hasChannel <;> cases active <;> cases queued <;>
    simp_all [completeFetch, callFetchQueue, syncInv]

theorem syncInv_run (hc : Bool) (evs : List SyncEvent) : syncInv (runSync hc evs) := by
  suffices h : ∀ (s : SyncState), syncInv s → syncInv (evs.foldl syncStep s) from
    h (syncInit hc) (syncInv_init hc)
  induction evs with
  | nil => exact fun s hs => hs
  | cons e rest ih =>
      intro s hs
      apply ih
      cases e with
      | call => exact syncInv_call s hs
      | complete o => exact syncInv_complete o s hs

/-- A call on an active state whose queued flag is already set changes
nothing, so such a state is a fixpoint of further calls. -/
theorem callFetchQueue_queued_fix (s : SyncState) (hc : s.hasChannel = true)
    (ha : s.active = true) (hq : s.queued = true) (n : Nat) :
    callFetchQueue^[n] s = s := by
  induction n with
  | zero => rfl
  | succ n ih =>
      have hstep : callFetchQueue s = s := by
        cases s
        simp only at hc ha hq
        subst hc ha hq
        simp [callFetchQueue]
      rw [Function.iterate_succ_apply, hstep, ih]

/-- While a refresh is active, every additional call only sets the queued
flag; iterating `K ≥ 1` calls from an active state leaves everything but
the queued flag untouched. -/
theorem callFetchQueue_iterate_active (s : SyncState) (K : Nat)
    (hc : s.hasChannel = true) (ha : s.active = true) (hK : 1 ≤ K) :
    callFetchQueue^[K] s = { s with queued := true } := by
  obtain ⟨n, rfl⟩ : ∃ n, K = n + 1 := ⟨K - 1, by omega⟩
  have hstep : callFetchQueue s = { s with queued := true } := by
    simp [callFetchQueue, hc, ha]
  rw [Function.iterate_succ_apply, hstep]
  exact callFetchQueue_queued_fix _ (by simpa using hc) (by simpa using ha) rfl n

/-- C1: the refresh operation is coalescing and re-entrant-safe.  First, in
every reachable state at most one refresh is in flight.  Second, if `K ≥ 1`
calls arrive while one refresh is in flight, they merely set the queued
flag and start nothing; when the in-flight refresh completes, exactly one
trailing refresh starts (`started` grows by one, not `K`), and when that
trailing refresh completes with no further calls, no additional refresh is
started. -/
theorem fetchQueue_refresh_coalescing :
    (∀ (hc : Bool) (evs : List SyncEvent), (runSync hc evs).flight ≤ 1) ∧
    (∀ (s : SyncState) (K : Nat) (o o₂ : FetchOutcome),
      syncInv s → s.hasChannel = true → s.active = true → 1 ≤ K →
      (callFetchQueue^[K] s).queued = true ∧
      (callFetchQueue^[K] s).started = s.started ∧
      (completeFetch o (callFetchQueue^[K] s)).started = s.started + 1 ∧
      (completeFetch o (callFetchQueue^[K] s)).active = true ∧
      (completeFetch o (callFetchQueue^[K] s)).queued = false ∧
      (completeFetch o₂ (completeFetch o (callFetchQueue^[K] s))).started = s.started + 1 ∧
      (completeFetch o₂ (completeFetch o (callFetchQueue^[K] s))).active = false) := by
  constructor
  · intro hc evs
    obtain ⟨h1, _⟩ := syncInv_run hc evs
    rw [h1]
    split <;> omega
  · intro s K o o₂ hinv hc ha hK
    rw [callFetchQueue_iterate_active s K hc ha hK]
    have hf : s.flight = 1 := by rw [hinv.1]; simp [ha]
    refine ⟨rfl, rfl, ?_, ?_, ?_, ?_, ?_⟩ <;>
      simp [completeFetch, callFetchQueue, hf, hc]

/-- Witness for C1: three calls land while a refresh is in flight; only the
queued flag is set, and completion starts exactly one trailing refresh. -/
theorem fetchQueue_refresh_coalescing_witness :
    (runSync true [SyncEvent.call, SyncEvent.call]).flight ≤ 1 ∧
    (callFetchQueue^[3] ⟨true, true, false, 1, 5⟩).queued = true ∧
    (callFetchQueue^[3] ⟨true, true, false, 1, 5⟩).started = 5 ∧
    (completeFetch FetchOutcome.ok (callFetchQueue^[3] ⟨true, true, false, 1, 5⟩)).started = 6 := by
  have h2 := fetchQueue_refresh_coalescing.2 ⟨true, true, false, 1, 5⟩ 3
    FetchOutcome.ok FetchOutcome.ok ⟨rfl, fun _ => rfl⟩ rfl rfl (by omega)
  exact ⟨fetchQueue_refresh_coalescing.1 true _, h2.1, h2.2.1, h2.2.2.1⟩

/-- C10: the `finally` block makes a refresh failure harmless.  Whatever the
body outcome (fetch rejected, non-ok response, rendering threw), completion
behaves identically: the active flag is cleared, and a pending queued
refresh is still triggered (exactly one new refresh starts when the queued
flag was set). -/
theorem fetchQueue_error_resilient
    (o o₂ : FetchOutcome) (s : SyncState)
    (hinv : syncInv s) (hc : s.hasChannel = true) (ha : s.active = true) :
    completeFetch o s = completeFetch o₂ s ∧
    (completeFetch o s).queued = false ∧
    (completeFetch o s).active = s.queued ∧
    (completeFetch o s).started = (if s.queued then s.started + 1 else s.started) ∧
    (completeFetch o s).flight = (if s.queued then 1 else 0) := by
  obtain ⟨hasChannel, active, queued, flight, started⟩ := s
  obtain ⟨h1, h2⟩ := hinv
  cases hasChannel <;> cases active <;> cases queued <;>
    simp_all [completeFetch, callFetchQueue]

/-- Witness for C10: a refresh that had a queued follow-up completes after
its fetch rejected; the queued refresh still starts. -/
theorem fetchQueue_error_resilient_witness :
    completeFetch FetchOutcome.fetchRejected ⟨true, true, true, 1, 7⟩ =
      completeFetch FetchOutcome.ok ⟨true, true, true, 1, 7⟩ ∧
    (completeFetch FetchOutcome.fetchRejected ⟨true, true, true, 1, 7⟩).queued = false ∧
    (completeFetch FetchOutcome.fetchRejected ⟨true, true, true, 1, 7⟩).active = true ∧
    (completeFetch FetchOutcome.fetchRejected ⟨true, true, true, 1, 7⟩).started = 8 := by
  have h := fetchQueue_error_resilient FetchOutcome.fetchRejected FetchOutcome.ok
    ⟨true, true, true, 1, 7⟩ ⟨rfl, fun _ => rfl⟩ rfl rfl
  refine ⟨h.1, h.2.1, ?_, ?_⟩
  · simpa using h.2.2.1
  · simpa using h.2.2.2.1

/-! ## Selection reconciliation after a successful refresh

`queue_manager/public/queue_manager.js`: `buildPreviewSourceKey` (lines
355-358), `selectQueueRequest` / `highlightQueueSelection` /
`resetPreviewState` (lines 606-648) and the reconciliation tail of
`fetchQueue` (lines 1250-1268).  Nullable JavaScript fields are modelled as
`Option`; only the fields the reconciliation logic reads are carried. -/

structure Song where
  artist : Option String
  title : Option String
  youtube_link : Option String
deriving DecidableEq

/-- Embedding of `buildPreviewSourceKey(song)`: empty string for a missing
song, otherwise the artist, title and link joined by the marker. -/
def buildPreviewSourceKey : Option Song → String
  | none => ""
  | some s => (s.artist.getD "") ++ "|||" ++ (s.title.getD "") ++ "|||" ++ (s.youtube_link.getD "")

structure RequestRec where
  id : Int
deriving DecidableEq

structure QueueEntry where
  request : RequestRec
  song : Option Song
deriving DecidableEq

/-- The two module variables `currentPreviewRequestId` and
`currentPreviewSourceKey` that make up the selection state. -/
structure PreviewSel where
  requestId : Option Int
  sourceKey : Option String
deriving DecidableEq

/-- JavaScript truthiness of `currentPreviewRequestId` (`null` and `0` are
falsy). -/
def truthyId : Option Int → Bool
  | some v => v != 0
  | none => false

/-- The `matchedEntry` accumulator of the render loop in `fetchQueue`:
`forEach` overwrites it on every entry whose `request.id` strictly equals
`currentPreviewRequestId`, so the last match wins. -/
def findMatchedEntry (data : List QueueEntry) (rid : Option Int) : Option QueueEntry :=
  data.foldl
    (fun acc e =>
      if (match rid with | some v => e.request.id == v | none => false) then some e else acc)
    none

/-- What the reconciled refresh did to the preview besides updating state. -/
inductive SelAction where
  | reset
  | highlight
  | reload (id : Int)
  | guarded
deriving DecidableEq

/-- Embedding of the reconciliation tail of `fetchQueue` (lines 1250-1268):
an empty queue resets the preview; with a truthy selected id, a matched
entry is re-selected with force when its fingerprint changed (a no-op when
the matched entry carries no song, because `selectQueueRequest` returns
early on `!entry.song`) and merely re-highlighted when unchanged, while a
vanished id resets the preview. -/
def reconcileSelection (data : List QueueEntry) (sel : PreviewSel) : PreviewSel × SelAction :=
  if data.isEmpty then (⟨none, none⟩, SelAction.reset)
  else if truthyId sel.requestId then
    match findMatchedEntry data sel.requestId with
    | some e =>
        let key := buildPreviewSourceKey e.song
        if some key ≠ sel.sourceKey then
          match e.song with
          | none => (sel, SelAction.guarded)
          | some _ => (⟨some e.request.id, some key⟩, SelAction.reload e.request.id)
        else (sel, SelAction.highlight)
    | none => (⟨none, none⟩, SelAction.reset)
  else (sel, SelAction.highlight)

/-- A matched entry really carries the selected id. -/
theorem findMatchedEntry_id (data : List QueueEntry) (v : Int) (e : QueueEntry)
    (h : findMatchedEntry data (some v) = some e) : e.request.id = v := by
  have hgen : ∀ (l : List QueueEntry) (acc : Option QueueEntry),
      (∀ a, acc = some a → a.request.id = v) →
      ∀ e, l.foldl (fun acc x => if x.request.id == v then some x else acc) acc = some e →
        e.request.id = v := by
    intro l
    induction l with
    | nil => intro acc hacc e he; exact hacc e he
    | cons x rest ih =>
        intro acc hacc e he
        simp only [List.foldl_cons] at he
        refine ih _ ?_ e he
        intro a ha
        by_cases hx : (x.request.id == v) = true
        · rw [if_pos hx] at ha
          cases ha
          exact eq_of_beq hx
        · rw [if_neg hx] at ha
          exact hacc a ha
  have h2 : data.foldl (fun acc x => if x.request.id == v then some x else acc) none = some e := h
  exact hgen data none (fun a ha => nomatch ha) e h2

/-- C3: selection reconciliation after a successful refresh.  If the
previously active request id is still present with an unchanged fingerprint,
the selection is untouched and only re-highlighted; if it is present with a
changed fingerprint, the preview is reloaded for that same id; if it is
absent, or the queue came back empty, the selection is cleared entirely. -/
theorem fetchQueue_selection_reconciliation
    (data : List QueueEntry) (sel : PreviewSel) :
    (∀ e, data.isEmpty = false → truthyId sel.requestId = true →
        findMatchedEntry data sel.requestId = some e →
        some (buildPreviewSourceKey e.song) = sel.sourceKey →
        reconcileSelection data sel = (sel, SelAction.highlight)) ∧
    (∀ e s, data.isEmpty = false → truthyId sel.requestId = true →
        findMatchedEntry data sel.requestId = some e →
        some (buildPreviewSourceKey e.song) ≠ sel.sourceKey →
        e.song = some s →
        reconcileSelection data sel =
          (⟨some e.request.id, some (buildPreviewSourceKey e.song)⟩,
           SelAction.reload e.request.id) ∧
        some e.request.id = sel.requestId) ∧
    (data.isEmpty = false → truthyId sel.requestId = true →
        findMatchedEntry data sel.requestId = none →
        reconcileSelection data sel = (⟨none, none⟩, SelAction.reset)) ∧
    (data.isEmpty = true →
        reconcileSelection data sel = (⟨none, none⟩, SelAction.reset)) := by
  refine ⟨?_, ?_, ?_, ?_⟩
  · intro e h1 h2 h3 h4
    simp [reconcileSelection, h1, h2, h3, h4]
  · intro e s h1 h2 h3 h4 h5
    constructor
    · have h4s : some (buildPreviewSourceKey (some s)) ≠ sel.sourceKey := by
        rw [← h5]; exact h4
      simp [reconcileSelection, h1, h2, h3, h5, h4s]
    · cases hr : sel.requestId with
      | none => rw [hr] at h2; simp [truthyId] at h2
      | some v =>
          rw [hr] at h3
          rw [findMatchedEntry_id data v e h3]
  · intro h1 h2 h3
    simp [reconcileSelection, h1, h2, h3]
  · intro h1
    simp [reconcileSelection, h1]

/-- Witness for C3 covering all four branches on a concrete one-entry
queue. -/
theorem fetchQueue_selection_reconciliation_witness :
    reconcileSelection [⟨⟨1⟩, some ⟨some "A", some "T", some "L"⟩⟩]
        ⟨some 1, some "A|||T|||L"⟩ =
      (⟨some 1, some "A|||T|||L"⟩, SelAction.highlight) ∧
    reconcileSelection [⟨⟨1⟩, some ⟨some "A", some "T", some "L"⟩⟩]
        ⟨some 1, some "old"⟩ =
      (⟨some 1, some "A|||T|||L"⟩, SelAction.reload 1) ∧
    reconcileSelection [⟨⟨1⟩, some ⟨some "A", some "T", some "L"⟩⟩]
        ⟨some 2, some "A|||T|||L"⟩ =
      (⟨none, none⟩, SelAction.reset) ∧
    reconcileSelection [] ⟨some 1, some "A|||T|||L"⟩ =
      (⟨none, none⟩, SelAction.reset) := by
  refine ⟨?_, ?_, ?_, ?_⟩
  · have h := (fetchQueue_selection_reconciliation
        [⟨⟨1⟩, some ⟨some "A", some "T", some "L"⟩⟩] ⟨some 1, some "A|||T|||L"⟩).1
      ⟨⟨1⟩, some ⟨some "A", some "T", some "L"⟩⟩ rfl (by decide) (by decide) (by decide)
    exact h
  · have h := ((fetchQueue_selection_reconciliation
        [⟨⟨1⟩, some ⟨some "A", some "T", some "L"⟩⟩] ⟨some 1, some "old"⟩).2.1
      ⟨⟨1⟩, some ⟨some "A", some "T", some "L"⟩⟩ ⟨some "A", some "T", some "L"⟩
      rfl (by decide) (by decide) (by decide) rfl).1
    simpa using h
  · exact (fetchQueue_selection_reconciliation
        [⟨⟨1⟩, some ⟨some "A", some "T", some "L"⟩⟩] ⟨some 2, some "A|||T|||L"⟩).2.2.1
      rfl (by decide) (by decide)
  · exact (fetchQueue_selection_reconciliation
        [] ⟨some 1, some "A|||T|||L"⟩).2.2.2 rfl

/-! ## Connection manager for the channel event socket

`queue_manager/public/queue_manager.js`: `teardownChannelEvents` (lines
2109-2128) and `connectChannelEvents` (lines 2228-2277).  The module state
is the socket reference (with its four handlers), the single reconnect
timer slot `channelEventTimer`, and `channelEventShouldReconnect`.
`socketLive` stands for a non-null `channelEventSocket` whose handlers are
attached; after teardown the handlers are detached and the reference
nulled, so handler dispatch requires `socketLive`.  `attempts` is a ghost
counter of `new WebSocket(...)` constructions and `feed` a ghost counter of
event feed appends. -/

inductive ConnStatus where
  | connecting
  | connected
  | connectionFailed
  | connectionError
  | reconnecting
  | disconnected
deriving DecidableEq

structure EvState where
  hasChannel : Bool
  hasFeed : Bool
  socketLive : Bool
  timer : Bool
  timerDelay : Nat
  shouldReconnect : Bool
  status : ConnStatus
  attempts : Nat
  feed : Nat
deriving DecidableEq

/-- Embedding of `teardownChannelEvents()`: forbid reconnection, clear the
pending timer, detach all handlers and release the socket, and show the
disconnected status. -/
def teardownChannelEvents (s : EvState) : EvState :=
  { s with shouldReconnect := false, timer := false, socketLive := false,
           status := ConnStatus.disconnected }

/-- Embedding of `connectChannelEvents()`: tear down any previous channel,
bail out without a channel name or feed element, then mark reconnection
wanted and construct the socket; a constructor throw schedules a 5 s retry
instead.  `ctorOk` is the outcome of `new WebSocket(url)`. -/
def connectChannelEvents (ctorOk : Bool) (s : EvState) : EvState :=
  let t := teardownChannelEvents s
  if t.hasChannel && t.hasFeed then
    let c := { t with shouldReconnect := true, status := ConnStatus.connecting }
    if ctorOk then { c with socketLive := true, attempts := c.attempts + 1 }
    else { c with status := ConnStatus.connectionFailed, timer := true, timerDelay := 5000 }
  else t

/-- The `onopen` handler: clear the pending timer, show connected, append a
feed entry.  Dispatch happens only while the socket and its handlers are
attached. -/
def onopenEvent (s : EvState) : EvState :=
  if s.socketLive then
    { s with timer := false, status := ConnStatus.connected, feed := s.feed + 1 }
  else s

/-- The `onmessage` handler: decode and append one feed entry. -/
def onmessageEvent (s : EvState) : EvState :=
  if s.socketLive then { s with feed := s.feed + 1 } else s

/-- The `onerror` handler: log and show the error status only. -/
def onerrorEvent (s : EvState) : EvState :=
  if s.socketLive then { s with status := ConnStatus.connectionError } else s

/-- The `onclose` handler: null the socket, clear any pending timer, then
either schedule a single 5 s reconnect (when reconnection is wanted) or
settle into the disconnected status. -/
def oncloseEvent (s : EvState) : EvState :=
  if s.socketLive then
    let s1 := { s with socketLive := false, timer := false }
    if s1.shouldReconnect then
      { s1 with status := ConnStatus.reconnecting, timer := true, timerDelay := 5000,
                feed := s1.feed + 1 }
    else { s1 with status := ConnStatus.disconnected, feed := s1.feed + 1 }
  else s

/-- Expiry of the reconnect timer: re-invoke `connectChannelEvents`. -/
def fireReconnectTimer (ctorOk : Bool) (s : EvState) : EvState :=
  if s.timer then connectChannelEvents ctorOk { s with timer := false } else s

/-- One full failure round: the socket closes abruptly and the scheduled
retry later fires with a successful constructor. -/
def failCycle (s : EvState) : EvState :=
  fireReconnectTimer true (oncloseEvent s)

theorem failCycle_preserves (s : EvState)
    (hch : s.hasChannel = true) (hfd : s.hasFeed = true)
    (hl : s.socketLive = true) (hr : s.shouldReconnect = true) :
    (failCycle s).hasChannel = true ∧ (failCycle s).hasFeed = true ∧
    (failCycle s).socketLive = true ∧ (failCycle s).shouldReconnect = true ∧
    (failCycle s).attempts = s.attempts + 1 := by
  simp [failCycle, oncloseEvent, fireReconnectTimer, connectChannelEvents,
        teardownChannelEvents, hch, hfd, hl, hr]

theorem failCycle_iterate (s : EvState)
    (hch : s.hasChannel = true) (hfd : s.hasFeed = true)
    (hl : s.socketLive = true) (hr : s.shouldReconnect = true) (n : Nat) :
    (failCycle^[n] s).hasChannel = true ∧ (failCycle^[n] s).hasFeed = true ∧
    (failCycle^[n] s).socketLive = true ∧ (failCycle^[n] s).shouldReconnect = true ∧
    (failCycle^[n] s).attempts = s.attempts + n := by
  induction n with
  | zero => exact ⟨hch, hfd, hl, hr, rfl⟩
  | succ n ih =>
      obtain ⟨a, b, c, d, e⟩ := ih
      have h := failCycle_preserves _ a b c d
      rw [Function.iterate_succ_apply']
      refine ⟨h.1, h.2.1, h.2.2.1, h.2.2.2.1, ?_⟩
      rw [h.2.2.2.2, e]
      omega

/-- C7: on abrupt close of the live channel the manager shows the
reconnecting status and schedules exactly one retry in the single timer
slot with a fixed 5000 ms delay; firing the timer re-invokes the open
operation (one new socket construction).  There is no retry cap: any number
of consecutive failure rounds leaves the manager live and willing to
reconnect, with exactly one construction per round. -/
theorem channelEvents_reconnect_indefinite (s : EvState)
    (hch : s.hasChannel = true) (hfd : s.hasFeed = true)
    (hl : s.socketLive = true) (hr : s.shouldReconnect = true) :
    (oncloseEvent s).status = ConnStatus.reconnecting ∧
    (oncloseEvent s).timer = true ∧
    (oncloseEvent s).timerDelay = 5000 ∧
    (failCycle s).socketLive = true ∧
    (failCycle s).attempts = s.attempts + 1 ∧
    (∀ n, (failCycle^[n] s).socketLive = true ∧
          (failCycle^[n] s).shouldReconnect = true ∧
          (failCycle^[n] s).attempts = s.attempts + n) := by
  refine ⟨?_, ?_, ?_, ?_, ?_, ?_⟩
  · simp [oncloseEvent, hl, hr]
  · simp [oncloseEvent, hl, hr]
  · simp [oncloseEvent, hl, hr]
  · exact (failCycle_preserves s hch hfd hl hr).2.2.1
  · exact (failCycle_preserves s hch hfd hl hr).2.2.2.2
  · intro n
    obtain ⟨_, _, c, d, e⟩ := failCycle_iterate s hch hfd hl hr n
    exact ⟨c, d, e⟩

/-- Witness for C7 at a concrete live connected state, run through three
failure rounds. -/
theorem channelEvents_reconnect_indefinite_witness :
    (oncloseEvent ⟨true, true, true, false, 0, true, ConnStatus.connected, 1, 4⟩).status =
      ConnStatus.reconnecting ∧
    (oncloseEvent ⟨true, true, true, false, 0, true, ConnStatus.connected, 1, 4⟩).timerDelay =
      5000 ∧
    (failCycle^[3] ⟨true, true, true, false, 0, true, ConnStatus.connected, 1, 4⟩).attempts =
      4 := by
  have h := channelEvents_reconnect_indefinite
    ⟨true, true, true, false, 0, true, ConnStatus.connected, 1, 4⟩ rfl rfl rfl rfl
  refine ⟨h.1, h.2.2.1, ?_⟩
  have h3 := (h.2.2.2.2.2 3).2.2
  simpa using h3

/-! ## Deterministic teardown order

The body of `teardownChannelEvents` is a fixed sequence of primitive
operations; `teardownChannelEventsOps` records that sequence, following the
source line by line (the guards mirror `if (channelEventTimer)` and
`if (channelEventSocket)`). -/

inductive TdOp where
  | setNoReconnect
  | clearReconnectTimer
  | detachOpen
  | detachMessage
  | detachError
  | detachClose
  | closeTransport
  | nullSocket
  | statusDisconnected
deriving DecidableEq

/-- The operations `teardownChannelEvents()` performs, in program order. -/
def teardownChannelEventsOps (s : EvState) : List TdOp :=
  [TdOp.setNoReconnect] ++
  (if s.timer then [TdOp.clearReconnectTimer] else []) ++
  (if s.socketLive then
      [TdOp.detachOpen, TdOp.detachMessage, TdOp.detachError, TdOp.detachClose,
       TdOp.closeTransport, TdOp.nullSocket]
    else []) ++
  [TdOp.statusDisconnected]

def TdOp.isDetach : TdOp → Bool
  | .detachOpen => true
  | .detachMessage => true
  | .detachError => true
  | .detachClose => true
  | _ => false

/-- No handler detachment happens at or after the transport close: every
detach operation in the trace precedes `closeTransport`. -/
def detachesPrecedeClose (ops : List TdOp) : Bool :=
  ((ops.dropWhile (fun o => o != TdOp.closeTransport)).filter TdOp.isDetach).isEmpty

/-- C8: closing the live channel is a deterministic teardown.  All four
handler detachments happen strictly before the transport is closed; the
pending reconnect timer is cancelled and reconnection is forbidden; and
afterwards no late-arriving message, open, error or close event mutates the
state or schedules a reconnect, because dispatch requires the attached
socket that teardown released. -/
theorem teardownChannelEvents_deterministic (s : EvState) :
    detachesPrecedeClose (teardownChannelEventsOps s) = true ∧
    (s.socketLive = true →
      ((teardownChannelEventsOps s).filter TdOp.isDetach).length = 4 ∧
      (teardownChannelEventsOps s).contains TdOp.closeTransport = true) ∧
    (teardownChannelEvents s).timer = false ∧
    (teardownChannelEvents s).shouldReconnect = false ∧
    (teardownChannelEvents s).socketLive = false ∧
    (teardownChannelEvents s).status = ConnStatus.disconnected ∧
    onmessageEvent (teardownChannelEvents s) = teardownChannelEvents s ∧
    onopenEvent (teardownChannelEvents s) = teardownChannelEvents s ∧
    onerrorEvent (teardownChannelEvents s) = teardownChannelEvents s ∧
    oncloseEvent (teardownChannelEvents s) = teardownChannelEvents s ∧
    (oncloseEvent (teardownChannelEvents s)).timer = false := by
  obtain ⟨hasChannel, hasFeed, socketLive, timer, timerDelay,
          shouldReconnect, status, attempts, feed⟩ := s
  refine ⟨?_, ?_, rfl, rfl, rfl, rfl, rfl, rfl, rfl, rfl, rfl⟩
  · cases socketLive <;> cases timer <;> rfl
  · intro hl
    simp only at hl
    subst hl
    cases timer <;> exact ⟨rfl, rfl⟩

/-- Witness for C8 at a concrete state with a live socket and a pending
timer. -/
theorem teardownChannelEvents_deterministic_witness :
    detachesPrecedeClose (teardownChannelEventsOps
      ⟨true, true, true, true, 5000, true, ConnStatus.connected, 1, 4⟩) = true ∧
    ((teardownChannelEventsOps
      ⟨true, true, true, true, 5000, true, ConnStatus.connected, 1, 4⟩).filter
        TdOp.isDetach).length = 4 ∧
    onmessageEvent (teardownChannelEvents
      ⟨true, true, true, true, 5000, true, ConnStatus.connected, 1, 4⟩) =
      teardownChannelEvents
        ⟨true, true, true, true, 5000, true, ConnStatus.connected, 1, 4⟩ := by
  have h := teardownChannelEvents_deterministic
    ⟨true, true, true, true, 5000, true, ConnStatus.connected, 1, 4⟩
  exact ⟨h.1, (h.2.1 rfl).1, h.2.2.2.2.2.2.1⟩

/-! ## Ticker renderer buffer

Modelled from the spec: the Ticker Renderer is part of the event overlay
script loaded through `event_overlay.html`; that page is referenced by the
overlay builder in `queue_manager/public/queue_manager.js`
(`OVERLAY_CONFIG.events.path`) but its script is not part of the source
tree.  Spec §4.5 / §3 `TickerBuffer`: an ordered sequence of display
events, capped at a fixed maximum count of 16, oldest entries evicted
first once capacity is exceeded.  (The dashboard feed `appendEventEntry`
in `queue_manager.js` is a different, 200-entry log.) -/

def TICKER_LIMIT : Nat := 16

/-- Modelled from the spec: push one display event, evicting from the
front once the fixed capacity is exceeded. -/
def tickerPush {α : Type} (buf : List α) (d : α) : List α :=
  if TICKER_LIMIT < (buf ++ [d]).length then
    (buf ++ [d]).drop ((buf ++ [d]).length - TICKER_LIMIT)
  else buf ++ [d]

theorem tickerPush_length {α : Type} (buf : List α) (d : α) :
    (tickerPush buf d).length = min (buf.length + 1) TICKER_LIMIT := by
  unfold tickerPush TICKER_LIMIT
  simp only [List.length_append, List.length_singleton]
  by_cases h : 16 < buf.length + 1
  · rw [if_pos h, List.length_drop]
    simp only [List.length_append, List.length_singleton]
    omega
  · rw [if_neg h]
    simp only [List.length_append, List.length_singleton]
    omega

/-- C6: the ticker buffer never exceeds 16 entries.  Starting from the
empty buffer, after any sequence of pushes the length is at most 16; a
push preserves the bound; and a push into a full buffer evicts exactly the
oldest entry. -/
theorem ticker_buffer_bounded :
    (∀ (α : Type) (ds : List α), (ds.foldl tickerPush []).length ≤ 16) ∧
    (∀ (α : Type) (buf : List α) (d : α), buf.length ≤ 16 →
        (tickerPush buf d).length ≤ 16) ∧
    (∀ (α : Type) (buf : List α) (d : α), buf.length = 16 →
        tickerPush buf d = buf.tail ++ [d]) := by
  refine ⟨?_, ?_, ?_⟩
  · intro α ds
    suffices h : ∀ (buf : List α), buf.length ≤ 16 → (ds.foldl tickerPush buf).length ≤ 16 from
      h [] (by simp)
    induction ds with
    | nil => intro buf hb; simpa using hb
    | cons d rest ih =>
        intro buf hb
        simp only [List.foldl_cons]
        refine ih (tickerPush buf d) ?_
        rw [tickerPush_length]
        unfold TICKER_LIMIT
        omega
  · intro α buf d hb
    rw [tickerPush_length]
    unfold TICKER_LIMIT
    omega
  · intro α buf d hb
    unfold tickerPush TICKER_LIMIT
    have hlen : (buf ++ [d]).length = 17 := by simp [hb]
    rw [if_pos (by rw [hlen]; omega), hlen]
    have h1 : (17 : Nat) - 16 = 1 := by omega
    rw [h1, List.drop_append_of_le_length (by omega), List.drop_one]

/-- Witness for C6: pushing a 17th item onto a full 16-item buffer evicts
the oldest. -/
theorem ticker_buffer_bounded_witness :
    ((List.range 16).foldl tickerPush []).length ≤ 16 ∧
    (tickerPush (List.range 16) 99).length ≤ 16 ∧
    tickerPush (List.range 16) 99 = (List.range 16).tail ++ [99] := by
  refine ⟨ticker_buffer_bounded.1 Nat (List.range 16),
          ticker_buffer_bounded.2.1 Nat (List.range 16) 99 (by decide),
          ticker_buffer_bounded.2.2 Nat (List.range 16) 99 (by decide)⟩

/-! ## Popup sequencer

Modelled from the spec: the Popup Sequencer also lives in the event
overlay script (`event_overlay.html`) outside the source tree.  Spec §4.4:
per-card state machine `Queued → Visible → Exiting → Removed`; `enqueue`
appends to the FIFO and promotes immediately when no card is active;
the exit timer marks the visible card `Exiting`; when the exit animation
finishes the card is removed and the next queued item is promoted.  A card
is "active" while `Visible` or `Exiting`, and per the §4.4 invariant at
most one card may be active, so promotion requires the active slot to be
empty.  `actives` is the list of cards currently in the DOM in an active
phase (kept as a list so that the at-most-one property is a theorem, not a
typing artifact), and `shown` records every card ever promoted, in display
order. -/

inductive Phase where
  | visible
  | exiting
deriving DecidableEq

structure PopupState (α : Type) where
  queue : List α
  actives : List (α × Phase)
  shown : List α

/-- Modelled from the spec: promotion of the queue head into the (empty)
active slot. -/
def promoteNext {α : Type} (s : PopupState α) : PopupState α :=
  match s.actives, s.queue with
  | [], h :: rest =>
      { queue := rest, actives := [(h, Phase.visible)], shown := s.shown ++ [h] }
  | _, _ => s

/-- Modelled from the spec: `enqueue` appends and promotes immediately when
nothing is active. -/
def popupEnqueue {α : Type} (d : α) (s : PopupState α) : PopupState α :=
  promoteNext { s with queue := s.queue ++ [d] }

/-- Modelled from the spec: the exit timer (or explicit trigger) marks the
visible card as exiting. -/
def beginExit {α : Type} (s : PopupState α) : PopupState α :=
  match s.actives with
  | [(d, Phase.visible)] => { s with actives := [(d, Phase.exiting)] }
  | _ => s

/-- Modelled from the spec: the animation-end signal removes the exiting
card and promotes the next queued item, if any. -/
def finishExit {α : Type} (s : PopupState α) : PopupState α :=
  match s.actives with
  | [(_, Phase.exiting)] => promoteNext { s with actives := [] }
  | _ => s

inductive PopupEv (α : Type) where
  | enq (d : α)
  | exitTimer
  | animEnd

def popupStep {α : Type} (s : PopupState α) : PopupEv α → PopupState α
  | .enq d => popupEnqueue d s
  | .exitTimer => beginExit s
  | .animEnd => finishExit s

def popupInit (α : Type) : PopupState α := ⟨[], [], []⟩

def runPopup {α : Type} (evs : List (PopupEv α)) : PopupState α :=
  evs.foldl popupStep (popupInit α)

/-- The display events carried by the `enqueue` calls of a trace, in
order. -/
def enqueuedOf {α : Type} (evs : List (PopupEv α)) : List α :=
  evs.filterMap (fun e => match e with | .enq d => some d | _ => none)

/-- Sequencer invariant: at most one active card, and the queue only holds
cards while something is active (promotion is eager). -/
def PopupInv {α : Type} (s : PopupState α) : Prop :=
  s.actives.length ≤ 1 ∧ (s.actives = [] → s.queue = [])

/-- Cards promoted so far together with cards still pending, in order. -/
def popupContent {α : Type} (s : PopupState α) : List α :=
  s.shown ++ s.queue

theorem promoteNext_content {α : Type} (s : PopupState α) :
    popupContent (promoteNext s) = popupContent s := by
  unfold promoteNext
  split <;> simp_all [popupContent]

theorem popupStep_content {α : Type} (s : PopupState α) (e : PopupEv α) :
    popupContent (popupStep s e) =
      popupContent s ++ (match e with | .enq d => [d] | _ => []) := by
  cases e with
  | enq d =>
      show popupContent (popupEnqueue d s) = _
      unfold popupEnqueue
      rw [promoteNext_content]
      simp [popupContent]
  | exitTimer =>
      show popupContent (beginExit s) = _
      unfold beginExit
      split <;> simp_all [popupContent]
  | animEnd =>
      show popupContent (finishExit s) = _
      unfold finishExit
      split
      · rw [promoteNext_content]
        simp [popupContent]
      · simp

theorem popupStep_inv {α : Type} (s : PopupState α) (e : PopupEv α) (h : PopupInv s) :
    PopupInv (popupStep s e) := by
  obtain ⟨h1, h2⟩ := h
  cases e with
  | enq d =>
      show PopupInv (popupEnqueue d s)
      rcases ha : s.actives with _ | ⟨a, as⟩
      · have hq : s.queue = [] := h2 ha
        simp [popupEnqueue, promoteNext, ha, hq, PopupInv]
      · rw [ha] at h1
        constructor
        · simpa [popupEnqueue, promoteNext, ha] using h1
        · simp [popupEnqueue, promoteNext, ha]
  | exitTimer =>
      show PopupInv (beginExit s)
      unfold beginExit
      split
      · constructor <;> simp
      · exact ⟨h1, h2⟩
  | animEnd =>
      show PopupInv (finishExit s)
      unfold finishExit
      split
      · unfold promoteNext
        rcases hq : s.queue with _ | ⟨x, rest⟩ <;> simp [PopupInv, hq]
      · exact ⟨h1, h2⟩

theorem runPopup_inv_content {α : Type} (evs : List (PopupEv α)) :
    PopupInv (runPopup evs) ∧ popupContent (runPopup evs) = enqueuedOf evs := by
  suffices h : ∀ s, PopupInv s →
      PopupInv (evs.foldl popupStep s) ∧
      popupContent (evs.foldl popupStep s) = popupContent s ++ enqueuedOf evs by
    have h0 := h (popupInit α) ⟨by simp [popupInit], fun _ => rfl⟩
    simpa [runPopup, popupInit, popupContent] using h0
  induction evs with
  | nil =>
      intro s hs
      exact ⟨hs, by simp [enqueuedOf]⟩
  | cons e rest ih =>
      intro s hs
      simp only [List.foldl_cons]
      obtain ⟨ih1, ih2⟩ := ih (popupStep s e) (popupStep_inv s e hs)
      refine ⟨ih1, ?_⟩
      rw [ih2, popupStep_content]
      cases e <;> simp [enqueuedOf]

/-- One drain round offered by the host: the exit timer fires and the exit
animation completes. -/
def popupDrain {α : Type} (s : PopupState α) : PopupState α := finishExit (beginExit s)

theorem popupDrain_iterate {α : Type} (n : Nat) (s : PopupState α)
    (hinv : PopupInv s) (hn : s.queue.length + s.actives.length = n) :
    (popupDrain^[n] s).queue = [] ∧ (popupDrain^[n] s).actives = [] ∧
    (popupDrain^[n] s).shown = popupContent s := by
  induction n generalizing s with
  | zero =>
      obtain ⟨h1, h2⟩ := hinv
      have hq : s.queue = [] := List.eq_nil_of_length_eq_zero (by omega)
      have ha : s.actives = [] := List.eq_nil_of_length_eq_zero (by omega)
      simp [hq, ha, popupContent]
  | succ n ih =>
      obtain ⟨h1, h2⟩ := hinv
      rcases ha : s.actives with _ | ⟨⟨a, ph⟩, as⟩
      · have hq := h2 ha
        rw [ha, hq] at hn
        simp at hn
      · have has : as = [] := by
          rw [ha] at h1
          simp only [List.length_cons] at h1
          exact List.eq_nil_of_length_eq_zero (by omega)
        subst has
        rw [Function.iterate_succ_apply]
        have hstep : popupDrain s = promoteNext { s with actives := [] } := by
          unfold popupDrain beginExit finishExit
          cases ph <;> simp [ha]
        rw [hstep]
        rcases hq : s.queue with _ | ⟨x, rest⟩
        · have hn0 : n = 0 := by
            rw [ha, hq] at hn
            simp at hn
            omega
          subst hn0
          have hfix : promoteNext
                { queue := ([] : List α), actives := ([] : List (α × Phase)),
                  shown := s.shown } =
              { queue := [], actives := [], shown := s.shown } := by
            simp [promoteNext]
          rw [hfix]
          simp [popupContent, hq]
        · have hpro : promoteNext
                { queue := x :: rest, actives := ([] : List (α × Phase)),
                  shown := s.shown } =
              ⟨rest, [(x, Phase.visible)], s.shown ++ [x]⟩ := by
            simp [promoteNext]
          rw [hpro]
          have hrec := ih ⟨rest, [(x, Phase.visible)], s.shown ++ [x]⟩
            ⟨by simp, by simp⟩ (by rw [ha, hq] at hn; simp at hn ⊢; omega)
          obtain ⟨d1, d2, d3⟩ := hrec
          refine ⟨d1, d2, ?_⟩
          rw [d3]
          simp [popupContent, hq]

/-- C9: popup sequencer correctness.  Modelled from the spec (the sequencer
lives in the event overlay script outside the source tree).  For every
trace of enqueue/timer/animation events: at most one card is active
(`Visible`/`Exiting`) at every instant; the cards promoted so far followed
by the cards still pending are exactly the enqueued cards in FIFO order;
and once the host supplies enough exit-timer and animation-end rounds, all
`N` enqueued cards have been shown, each exactly once, in FIFO order, with
nothing left pending. -/
theorem popupSequencer_fifo_drain (α : Type) (evs : List (PopupEv α)) :
    (runPopup evs).actives.length ≤ 1 ∧
    (runPopup evs).shown ++ (runPopup evs).queue = enqueuedOf evs ∧
    (popupDrain^[(runPopup evs).queue.length + (runPopup evs).actives.length]
        (runPopup evs)).shown = enqueuedOf evs ∧
    (popupDrain^[(runPopup evs).queue.length + (runPopup evs).actives.length]
        (runPopup evs)).actives = [] ∧
    (popupDrain^[(runPopup evs).queue.length + (runPopup evs).actives.length]
        (runPopup evs)).queue = [] := by
  obtain ⟨hinv, hcontent⟩ := runPopup_inv_content evs
  obtain ⟨d1, d2, d3⟩ := popupDrain_iterate _ (runPopup evs) hinv rfl
  exact ⟨hinv.1, hcontent, by rw [d3]; exact hcontent, d2, d1⟩

/-! ## Event normalizer of the overlay engine

Modelled from the spec: the Event Normalizer also lives in the event
overlay script (`event_overlay.html`) outside the source tree.  Spec §4.2:
a message trimming to something starting with a brace or bracket is parsed
as structured data (type defaulting to `"event"` when absent or
non-string, payload from the `payload` field when present else the whole
structure, timestamp from the `timestamp` field); any other message is
decoded as flat `key=value` pairs separated by semicolons or newlines; and
when decoding yields nothing usable the normalizer falls back to
`type="raw"`, `payload={message: <original text>}`, `timestamp=null`,
never raising.  Wire text is modelled as `List Char`; the platform JSON
parser is an explicit `parse` argument, so that the normalizer itself is a
total function: every failure path lands in the fallback value rather than
propagating. -/

structure RawEvent where
  type : String
  payload : Json
  timestamp : Option String

def jsWhitespace (c : Char) : Bool :=
  c == ' ' || c == '\t' || c == '\n' || c == '\r'

def trimChars (cs : List Char) : List Char :=
  ((cs.dropWhile jsWhitespace).reverse.dropWhile jsWhitespace).reverse

def splitCharsAux (sep : Char → Bool) : List Char → List Char → List (List Char)
  | cur, [] => [cur.reverse]
  | cur, c :: rest =>
      if sep c then cur.reverse :: splitCharsAux sep [] rest
      else splitCharsAux sep (c :: cur) rest

def splitChars (sep : Char → Bool) (cs : List Char) : List (List Char) :=
  splitCharsAux sep [] cs

/-- Split a segment at its first `=`, when it has one. -/
def splitFirstEq : List Char → Option (List Char × List Char)
  | [] => none
  | c :: rest =>
      if c == '=' then some ([], rest)
      else (splitFirstEq rest).map (fun p => (c :: p.1, p.2))

/-- Modelled from the spec: one flat segment becomes a key/value pair with
both sides trimmed; a segment without `=` carries no pair. -/
def parseFlatPair (seg : List Char) : Option (String × String) :=
  match splitFirstEq seg with
  | none => none
  | some (k, v) => some (String.mk (trimChars k), String.mk (trimChars v))

/-- Modelled from the spec: the flat pairs of a message, split on
semicolons and newlines. -/
def flatPairs (msg : List Char) : List (String × String) :=
  (splitChars (fun c => c == ';' || c == '\n') msg).filterMap parseFlatPair

/-- Lookup in the flat mapping; a repeated key overwrites, so the last
occurrence wins. -/
def lookupFlat (ps : List (String × String)) (k : String) : Option String :=
  ((ps.filter (fun p => p.1 == k)).getLast?).map (fun p => p.2)

def firstSome {α : Type} (a b : Option α) : Option α :=
  match a with
  | some v => some v
  | none => b

/-- Keys consumed for the envelope rather than the payload. -/
def consumedFlatKey (k : String) : Bool :=
  k == "type" || k == "event" || k == "timestamp" || k == "ts"

/-- Modelled from the spec: the displayable fallback record for malformed
input. -/
def fallbackRawEvent (msg : List Char) : RawEvent :=
  { type := "raw",
    payload := Json.obj [("message", Json.str (String.mk msg))],
    timestamp := none }

/-- Modelled from the spec: envelope extraction from parsed structured
data. -/
def structuredRawEvent (v : Json) : RawEvent :=
  { type := match v.getField "type" with | some (Json.str s) => s | _ => "event",
    payload := (v.getField "payload").getD v,
    timestamp := match v.getField "timestamp" with | some (Json.str s) => some s | _ => none }

def openBraceChar : Char := Char.ofNat 123

def openBracketChar : Char := '['

def startsWithChar (cs : List Char) (c : Char) : Bool :=
  match cs with
  | [] => false
  | x :: _ => x == c

/-- Modelled from the spec: the two-format normalizer.  `parse` is the
platform JSON parser (`none` models a parse error). -/
def normalizeMessage (parse : List Char → Option Json) (msg : List Char) : RawEvent :=
  let t := trimChars msg
  if startsWithChar t openBraceChar || startsWithChar t openBracketChar then
    match parse t with
    | some v => structuredRawEvent v
    | none => fallbackRawEvent msg
  else
    let ps := flatPairs msg
    if ps.isEmpty then fallbackRawEvent msg
    else
      { type := (firstSome (lookupFlat ps "type") (lookupFlat ps "event")).getD "event",
        payload := Json.obj ((ps.filter (fun p => !(consumedFlatKey p.1))).map
          (fun p => (p.1, Json.str p.2))),
        timestamp := firstSome (lookupFlat ps "timestamp") (lookupFlat ps "ts") }

/-- Decoding yields no usable content: a brace/bracket message whose parse
fails, or a flat message yielding no pairs (for instance the empty
message). -/
def malformedMessage (parse : List Char → Option Json) (msg : List Char) : Prop :=
  ((startsWithChar (trimChars msg) openBraceChar ||
      startsWithChar (trimChars msg) openBracketChar) = true ∧
    parse (trimChars msg) = none) ∨
  ((startsWithChar (trimChars msg) openBraceChar ||
      startsWithChar (trimChars msg) openBracketChar) = false ∧
    flatPairs msg = [])

/-- C2: the normalizer is a total function (it never raises), and every
malformed or unparseable message yields exactly the fallback record: type
`"raw"`, payload `{message: <original text>}`, timestamp null. -/
theorem normalizer_raw_fallback (parse : List Char → Option Json) (msg : List Char)
    (h : malformedMessage parse msg) :
    normalizeMessage parse msg = fallbackRawEvent msg ∧
    (normalizeMessage parse msg).type = "raw" ∧
    (normalizeMessage parse msg).payload = Json.obj [("message", Json.str (String.mk msg))] ∧
    (normalizeMessage parse msg).timestamp = none := by
  have heq : normalizeMessage parse msg = fallbackRawEvent msg := by
    rcases h with ⟨hb, hp⟩ | ⟨hb, hp⟩
    · simp [normalizeMessage, hb, hp]
    · simp [normalizeMessage, hb, hp]
  exact ⟨heq, by rw [heq]; rfl, by rw [heq]; rfl, by rw [heq]; rfl⟩

/-- Witness for C2: a plain-text message that is neither structured nor a
flat pair list. -/
theorem normalizer_raw_fallback_witness :
    normalizeMessage (fun _ => none) "hello world".data =
      fallbackRawEvent "hello world".data ∧
    (normalizeMessage (fun _ => none) "hello world".data).type = "raw" ∧
    (normalizeMessage (fun _ => none) "hello world".data).timestamp = none := by
  have h := normalizer_raw_fallback (fun _ => none) "hello world".data
    (Or.inr ⟨by decide, by decide⟩)
  exact ⟨h.1, h.2.1, h.2.2.2⟩

/-- C4: every message that does not trim to a brace or bracket is decoded
as flat `key=value` pairs split on semicolons and newlines: the type comes
from a `type` or `event` key and defaults to `"event"`, the timestamp from
a `timestamp` or `ts` key, and every other key becomes a payload field. -/
theorem normalizer_flat_decoding (parse : List Char → Option Json) (msg : List Char)
    (hb : (startsWithChar (trimChars msg) openBraceChar ||
        startsWithChar (trimChars msg) openBracketChar) = false)
    (hp : flatPairs msg ≠ []) :
    (normalizeMessage parse msg).type =
      (firstSome (lookupFlat (flatPairs msg) "type")
        (lookupFlat (flatPairs msg) "event")).getD "event" ∧
    (normalizeMessage parse msg).timestamp =
      firstSome (lookupFlat (flatPairs msg) "timestamp")
        (lookupFlat (flatPairs msg) "ts") ∧
    (normalizeMessage parse msg).payload =
      Json.obj (((flatPairs msg).filter (fun p => !(consumedFlatKey p.1))).map
        (fun p => (p.1, Json.str p.2))) := by
  cases hps : flatPairs msg with
  | nil => exact absurd hps hp
  | cons a l => refine ⟨?_, ?_, ?_⟩ <;> simp [normalizeMessage, hb, hps]

/-- Witness for C4 at the end-to-end example of the spec: the flat message
`type=queue.status;status=open`. -/
theorem normalizer_flat_decoding_witness :
    (normalizeMessage (fun _ => none) "type=queue.status;status=open".data).type =
      "queue.status" ∧
    (normalizeMessage (fun _ => none) "type=queue.status;status=open".data).payload =
      Json.obj [("status", Json.str "open")] ∧
    (normalizeMessage (fun _ => none) "type=queue.status;status=open".data).timestamp =
      none := by
  have h := normalizer_flat_decoding (fun _ => none) "type=queue.status;status=open".data
    (by decide) (by decide)
  refine ⟨?_, ?_, ?_⟩
  · rw [h.1]; rfl
  · rw [h.2.2]; rfl
  · rw [h.2.1]; rfl

end SMUbot
